import Mathlib

/-!
# Verification of the text-boost split/join augmentation core

Shallow embedding of `src/textmentations/augmentations/utils.py` (and the
transform scaffolding in `src/text_augmentation/transforms.py`) over
`List Char` as the model of Python `str`.
-/

namespace TextBoost

/-- A Python string, modelled as its list of characters. -/
abbrev PyStr := List Char

/-- The whitespace characters recognised by Python's `str.strip()` /
`str.split()` (the Unicode whitespace set used by `Py_UNICODE_ISSPACE`). -/
def pyIsSpace (c : Char) : Bool :=
  c.val = 0x09 ∨ c.val = 0x0A ∨ c.val = 0x0B ∨ c.val = 0x0C ∨ c.val = 0x0D ∨
  (0x1C ≤ c.val ∧ c.val ≤ 0x1F) ∨ c.val = 0x20 ∨ c.val = 0x85 ∨ c.val = 0xA0 ∨
  c.val = 0x1680 ∨ (0x2000 ≤ c.val ∧ c.val ≤ 0x200A) ∨ c.val = 0x2028 ∨
  c.val = 0x2029 ∨ c.val = 0x202F ∨ c.val = 0x205F ∨ c.val = 0x3000

/-- Removes the trailing run of whitespace characters (Python `str.rstrip()`). -/
def rstripChars : PyStr → PyStr
  | [] => []
  | c :: cs =>
    match rstripChars cs with
    | [] => if pyIsSpace c then [] else [c]
    | r => c :: r

/-- Python `str.strip()`: remove leading and trailing whitespace. -/
def stripChars (s : PyStr) : PyStr :=
  rstripChars (s.dropWhile pyIsSpace)

/-- Python `re.split(r"[.]", text)`: cut the string at every `'.'`,
keeping empty pieces. -/
def splitOnDot : PyStr → List PyStr
  | [] => [[]]
  | c :: cs =>
    if c = '.' then [] :: splitOnDot cs
    else
      match splitOnDot cs with
      | [] => [[c]]
      | p :: ps => (c :: p) :: ps

/-- Helper for `pySplitWs`: `acc` holds the characters of the current word in
reverse; a whitespace character (or the end of the string) closes the word,
and empty words are dropped. -/
def pySplitWsAux : PyStr → PyStr → List PyStr
  | [], acc => if acc = [] then [] else [acc.reverse]
  | c :: cs, acc =>
    if pyIsSpace c then
      if acc = [] then pySplitWsAux cs [] else acc.reverse :: pySplitWsAux cs []
    else pySplitWsAux cs (c :: acc)

/-- Python `str.split()` with no argument: split on runs of whitespace,
dropping empty pieces. -/
def pySplitWs (s : PyStr) : List PyStr :=
  pySplitWsAux s []

/-- `strip_v2`: strip each string, keeping only the non-empty results
(`[stripped for s in strings if (stripped := s.strip())]`). -/
def strip_v2 (strings : List PyStr) : List PyStr :=
  strings.filterMap fun s =>
    let stripped := stripChars s
    if stripped = [] then none else some stripped

/-- `split_sentence_into_words`: `sentence.split()` then `strip_v2`. -/
def split_sentence_into_words (sentence : PyStr) : List PyStr :=
  strip_v2 (pySplitWs sentence)

/-- `split_text_into_sentences`: `re.split(r"[.]", text)` then `strip_v2`. -/
def split_text_into_sentences (text : PyStr) : List PyStr :=
  strip_v2 (splitOnDot text)

/-- Python `sep.join(strings)`. -/
def pyJoin (sep : PyStr) : List PyStr → PyStr
  | [] => []
  | [s] => s
  | s :: s' :: rest => s ++ sep ++ pyJoin sep (s' :: rest)

/-- `join_words_into_sentence`: `" ".join(words)`. -/
def join_words_into_sentence (words : List PyStr) : PyStr :=
  pyJoin [' '] words

/-- `join_sentences_into_text`: `". ".join(sentences)`, then append a `'.'`
when the result is non-empty. -/
def join_sentences_into_text (sentences : List PyStr) : PyStr :=
  let text := pyJoin ['.', ' '] sentences
  if text = [] then text else text ++ ['.']

/-- Python sequence indexing: a (possibly negative) index `n` is valid for a
list of length `len` iff `-len ≤ n < len`; a negative index counts from the
end. Returns the effective non-negative index, or `none` (an `IndexError`). -/
def pyIndex (len : Nat) (n : Int) : Option Nat :=
  let i : Int := if n < 0 then n + len else n
  if 0 ≤ i ∧ i < len then some i.toNat else none

/-- `extract_nth_sentence`: `sentences[n]`, with `IndexError` caught and
turned into the empty string. -/
def extract_nth_sentence (text : PyStr) (n : Int) : PyStr :=
  let sentences := split_text_into_sentences text
  match pyIndex sentences.length n with
  | some i => sentences.getD i []
  | none => []

/-- `remove_nth_sentence`: `del sentences[n]` then rejoin, with `IndexError`
caught and turned into returning the input text unchanged. -/
def remove_nth_sentence (text : PyStr) (n : Int) : PyStr :=
  let sentences := split_text_into_sentences text
  match pyIndex sentences.length n with
  | some i => join_sentences_into_text (sentences.eraseIdx i)
  | none => text

/-- `wrap_text_with_sentences`: prefix/suffix sentence lists (optional, and a
`None` or empty list is falsy in Python, yielding the empty prefix/suffix
text), joined and glued around the text with `" ".join`, then stripped. -/
def wrap_text_with_sentences (text : PyStr)
    (prefix_sentences suffix_sentences : Option (List PyStr)) : PyStr :=
  let prefix_text :=
    match prefix_sentences with
    | some ps => if ps = [] then [] else join_sentences_into_text ps
    | none => []
  let suffix_text :=
    match suffix_sentences with
    | some ss => if ss = [] then [] else join_sentences_into_text ss
    | none => []
  stripChars (pyJoin [' '] [prefix_text, text, suffix_text])

/-- `pass_empty_text`: the decorated function is skipped on a falsy (empty)
text; otherwise it is called with the text and the remaining arguments. -/
def pass_empty_text {α : Type} (func : PyStr → α → PyStr)
    (text : PyStr) (args : α) : PyStr :=
  if text = [] then text else func text args

/-! ## Basic lemmas about stripping -/

theorem rstripChars_cons_of_nil {cs : PyStr} (h : rstripChars cs = []) (c : Char) :
    rstripChars (c :: cs) = if pyIsSpace c then [] else [c] := by
  unfold rstripChars
  rw [h]

theorem rstripChars_cons_of_cons {cs : PyStr} {x : Char} {xs : List Char}
    (h : rstripChars cs = x :: xs) (c : Char) :
    rstripChars (c :: cs) = c :: x :: xs := by
  unfold rstripChars
  rw [h]

theorem rstripChars_prefix_self (l : PyStr) : rstripChars l <+: l := by
  induction l with
  | nil => simp [rstripChars]
  | cons c cs ih =>
    cases h : rstripChars cs with
    | nil =>
      rw [rstripChars_cons_of_nil h]
      split
      · exact List.nil_prefix
      · exact ⟨cs, rfl⟩
    | cons x xs =>
      rw [rstripChars_cons_of_cons h]
      exact (List.prefix_cons_inj c).mpr (h ▸ ih)

theorem rstripChars_idem (l : PyStr) : rstripChars (rstripChars l) = rstripChars l := by
  induction l with
  | nil => rfl
  | cons c cs ih =>
    cases h : rstripChars cs with
    | nil =>
      rw [rstripChars_cons_of_nil h]
      split
      · rfl
      · next hc =>
        have hnil : rstripChars ([] : PyStr) = [] := rfl
        rw [rstripChars_cons_of_nil hnil, if_neg hc]
    | cons x xs =>
      rw [h] at ih
      rw [rstripChars_cons_of_cons h]
      exact rstripChars_cons_of_cons ih c

theorem dropWhile_space_head_false {l : PyStr} {c : Char} {t : PyStr}
    (h : l.dropWhile pyIsSpace = c :: t) : pyIsSpace c = false := by
  induction l with
  | nil => simp at h
  | cons a l ih =>
    rw [List.dropWhile_cons] at h
    split at h
    · exact ih h
    · next ha => cases h; exact Bool.of_not_eq_true ha

theorem stripChars_nil : stripChars [] = [] := rfl

theorem stripChars_idem (l : PyStr) : stripChars (stripChars l) = stripChars l := by
  unfold stripChars
  cases hm : l.dropWhile pyIsSpace with
  | nil => simp [rstripChars]
  | cons c t =>
    have hc : pyIsSpace c = false := dropWhile_space_head_false hm
    cases hr : rstripChars (c :: t) with
    | nil => simp [rstripChars]
    | cons d u =>
      have hpre : d :: u <+: c :: t := hr ▸ rstripChars_prefix_self (c :: t)
      obtain ⟨rfl, -⟩ := List.cons_prefix_cons.mp hpre
      rw [List.dropWhile_cons_of_neg (by simp [hc]), ← hr, ← hm, rstripChars_idem]

theorem stripChars_sublist (l : PyStr) : List.Sublist (stripChars l) l :=
  ((rstripChars_prefix_self _).sublist).trans (List.dropWhile_sublist _)

theorem mem_of_mem_stripChars {l : PyStr} {c : Char} (h : c ∈ stripChars l) : c ∈ l :=
  (stripChars_sublist l).subset h

theorem stripChars_cons_space {c : Char} (hc : pyIsSpace c = true) (l : PyStr) :
    stripChars (c :: l) = stripChars l := by
  unfold stripChars
  rw [List.dropWhile_cons_of_pos hc]

/-! ## Basic lemmas about splitting -/

theorem splitOnDot_ne_nil (l : PyStr) : splitOnDot l ≠ [] := by
  induction l with
  | nil => simp [splitOnDot]
  | cons c cs ih =>
    simp only [splitOnDot]
    split
    · simp
    · cases h : splitOnDot cs <;> simp

theorem mem_splitOnDot_no_dot {l : PyStr} {s : PyStr} (h : s ∈ splitOnDot l) :
    ('.' : Char) ∉ s := by
  induction l generalizing s with
  | nil =>
    simp only [splitOnDot, List.mem_singleton] at h
    simp [h]
  | cons c cs ih =>
    simp only [splitOnDot] at h
    split at h
    · rcases List.mem_cons.mp h with rfl | hmem
      · simp
      · exact ih hmem
    · next hc =>
      cases hsplit : splitOnDot cs with
      | nil => exact absurd hsplit (splitOnDot_ne_nil cs)
      | cons p ps =>
        rw [hsplit] at h
        rcases List.mem_cons.mp h with rfl | hmem
        · have hp : ('.' : Char) ∉ p := ih (hsplit ▸ List.mem_cons_self p ps)
          simp [hc, hp, Ne.symm hc]
        · exact ih (hsplit ▸ List.mem_cons_of_mem p hmem)

theorem splitOnDot_append_dot {a : PyStr} (ha : ('.' : Char) ∉ a) (l : PyStr) :
    splitOnDot (a ++ '.' :: l) = a :: splitOnDot l := by
  induction a with
  | nil => simp [splitOnDot]
  | cons c a' ih =>
    have hc : c ≠ '.' := fun h => ha (h ▸ List.mem_cons_self c a')
    have ha' : ('.' : Char) ∉ a' := fun h => ha (List.mem_cons_of_mem c h)
    simp only [List.cons_append, splitOnDot, List.append_eq]
    rw [if_neg hc, ih ha']

theorem splitOnDot_cons_ne {c : Char} (hc : c ≠ '.') {l : PyStr} {h : PyStr}
    {t : List PyStr} (hs : splitOnDot l = h :: t) :
    splitOnDot (c :: l) = (c :: h) :: t := by
  simp only [splitOnDot, if_neg hc, hs]

/-! ## Lemmas about strip_v2 -/

theorem strip_v2_nil : strip_v2 [] = [] := rfl

theorem strip_v2_cons (s : PyStr) (l : List PyStr) :
    strip_v2 (s :: l) =
      if stripChars s = [] then strip_v2 l else stripChars s :: strip_v2 l := by
  by_cases h : stripChars s = [] <;> simp [strip_v2, List.filterMap_cons, h]

theorem mem_strip_v2 {l : List PyStr} {s : PyStr} (h : s ∈ strip_v2 l) :
    s ≠ [] ∧ stripChars s = s ∧ ∃ a ∈ l, s = stripChars a := by
  simp only [strip_v2, List.mem_filterMap] at h
  obtain ⟨a, ha, hfa⟩ := h
  by_cases hz : stripChars a = []
  · rw [if_pos hz] at hfa
    cases hfa
  · rw [if_neg hz] at hfa
    obtain rfl : stripChars a = s := Option.some.inj hfa
    exact ⟨hz, stripChars_idem a, a, ha, rfl⟩

/-- Every sentence produced by `split_text_into_sentences` is non-empty,
already stripped, and contains no `'.'`. -/
theorem split_text_into_sentences_good {t : PyStr} {s : PyStr}
    (h : s ∈ split_text_into_sentences t) :
    s ≠ [] ∧ stripChars s = s ∧ ('.' : Char) ∉ s := by
  obtain ⟨hne, hstrip, a, ha, rfl⟩ := mem_strip_v2 h
  exact ⟨hne, hstrip, fun hdot =>
    mem_splitOnDot_no_dot ha (mem_of_mem_stripChars hdot)⟩

/-! ## Split/join roundtrip -/

theorem strip_v2_splitOnDot_space (l : PyStr) :
    strip_v2 (splitOnDot (' ' :: l)) = strip_v2 (splitOnDot l) := by
  cases hs : splitOnDot l with
  | nil => exact absurd hs (splitOnDot_ne_nil l)
  | cons h t =>
    rw [splitOnDot_cons_ne (by decide) hs, strip_v2_cons, strip_v2_cons,
      stripChars_cons_space (by decide)]

theorem split_join_aux (ss : List PyStr) :
    (∀ s ∈ ss, s ≠ [] ∧ stripChars s = s ∧ ('.' : Char) ∉ s) → ss ≠ [] →
    strip_v2 (splitOnDot (pyJoin ['.', ' '] ss ++ ['.'])) = ss := by
  induction ss with
  | nil => exact fun _ h => absurd rfl h
  | cons s ss' ih =>
    intro hss _
    obtain ⟨hsne, hsstrip, hsdot⟩ := hss s (List.mem_cons_self s ss')
    cases ss' with
    | nil =>
      have hemp : strip_v2 [[]] = [] := rfl
      rw [show pyJoin ['.', ' '] [s] = s from rfl, splitOnDot_append_dot hsdot,
        show splitOnDot [] = [[]] from rfl, strip_v2_cons, hsstrip, if_neg hsne, hemp]
    | cons s₂ rest =>
      have hss' : ∀ x ∈ s₂ :: rest, x ≠ [] ∧ stripChars x = x ∧ ('.' : Char) ∉ x :=
        fun x hx => hss x (List.mem_cons_of_mem s hx)
      have ihs := ih hss' (List.cons_ne_nil s₂ rest)
      have harr : pyJoin ['.', ' '] (s :: s₂ :: rest) ++ ['.'] =
          s ++ '.' :: (' ' :: (pyJoin ['.', ' '] (s₂ :: rest) ++ ['.'])) := by
        rw [show pyJoin ['.', ' '] (s :: s₂ :: rest) =
          s ++ ['.', ' '] ++ pyJoin ['.', ' '] (s₂ :: rest) from rfl]
        simp
      rw [harr, splitOnDot_append_dot hsdot, strip_v2_cons, hsstrip, if_neg hsne,
        strip_v2_splitOnDot_space, ihs]

theorem split_join_roundtrip (ss : List PyStr)
    (hss : ∀ s ∈ ss, s ≠ [] ∧ stripChars s = s ∧ ('.' : Char) ∉ s) :
    split_text_into_sentences (join_sentences_into_text ss) = ss := by
  cases ss with
  | nil => rfl
  | cons s ss' =>
    have hne : pyJoin ['.', ' '] (s :: ss') ≠ [] := by
      obtain ⟨hsne, -, -⟩ := hss s (List.mem_cons_self s ss')
      cases ss' with
      | nil => simpa [pyJoin] using hsne
      | cons b r => simp [pyJoin]
    show strip_v2 (splitOnDot (join_sentences_into_text (s :: ss'))) = s :: ss'
    simp only [join_sentences_into_text, if_neg hne]
    exact split_join_aux (s :: ss') hss (List.cons_ne_nil s ss')

/-- C1: splitting a text into sentences and joining them back is
idempotent: one application of join∘split normalizes the text, and a second
application returns the first application's output unchanged. -/
theorem split_join_idempotent (t : PyStr) :
    join_sentences_into_text (split_text_into_sentences
      (join_sentences_into_text (split_text_into_sentences t))) =
    join_sentences_into_text (split_text_into_sentences t) := by
  rw [split_join_roundtrip (split_text_into_sentences t)
    (fun s hs => split_text_into_sentences_good hs)]

/-- C2: `split_text_into_sentences` (split on `'.'`, strip, drop empties)
and `split_sentence_into_words` (split on whitespace runs) never yield an
empty-string element, never yield an element with leading or trailing
whitespace, and both map the empty string to the empty list. -/
theorem split_operations_wellformed (t : PyStr) :
    (∀ s ∈ split_text_into_sentences t, s ≠ [] ∧ stripChars s = s) ∧
    (∀ w ∈ split_sentence_into_words t, w ≠ [] ∧ stripChars w = w) ∧
    split_text_into_sentences [] = [] ∧ split_sentence_into_words [] = [] := by
  refine ⟨fun s hs => ?_, fun w hw => ?_, rfl, rfl⟩
  · obtain ⟨h1, h2, -⟩ := mem_strip_v2 hs
    exact ⟨h1, h2⟩
  · obtain ⟨h1, h2, -⟩ := mem_strip_v2 hw
    exact ⟨h1, h2⟩

/-- Witness for C2 on the concrete text `"hi. ok"` and sentence `"hi ok"`. -/
theorem split_operations_wellformed_witness :
    (['h', 'i'] ≠ ([] : PyStr) ∧ stripChars ['h', 'i'] = ['h', 'i']) ∧
    (['o', 'k'] ≠ ([] : PyStr) ∧ stripChars ['o', 'k'] = ['o', 'k']) :=
  ⟨(split_operations_wellformed ['h', 'i', '.', ' ', 'o', 'k']).1 ['h', 'i'] (by decide),
   (split_operations_wellformed ['h', 'i', ' ', 'o', 'k']).2.1 ['o', 'k'] (by decide)⟩

/-- C3: `join_sentences_into_text` joins with `". "` and appends exactly
one trailing `'.'` iff the joined string is non-empty; the empty list yields
the empty string. `join_words_into_sentence` joins with a single space and
maps the empty list to the empty string. -/
theorem join_operations_spec (ss ws : List PyStr) :
    join_sentences_into_text [] = [] ∧
    join_words_into_sentence [] = [] ∧
    (pyJoin ['.', ' '] ss = [] → join_sentences_into_text ss = []) ∧
    (pyJoin ['.', ' '] ss ≠ [] →
      join_sentences_into_text ss = pyJoin ['.', ' '] ss ++ ['.']) ∧
    join_words_into_sentence ws = pyJoin [' '] ws := by
  refine ⟨rfl, rfl, fun h => ?_, fun h => ?_, rfl⟩
  · simp only [join_sentences_into_text]
    rw [if_pos h, h]
  · simp only [join_sentences_into_text]
    rw [if_neg h]

/-- Witness for C3 at the empty list and at the singleton list `["hi"]`. -/
theorem join_operations_spec_witness :
    join_sentences_into_text ([] : List PyStr) = [] ∧
    join_sentences_into_text [['h', 'i']] = pyJoin ['.', ' '] [['h', 'i']] ++ ['.'] :=
  ⟨(join_operations_spec [] []).2.2.1 rfl,
   (join_operations_spec [['h', 'i']] []).2.2.2.1 (by decide)⟩

/-! ## Python indexing -/

theorem pyIndex_nonneg_valid {len : Nat} {n : Int} (h0 : 0 ≤ n) (hk : n.toNat < len) :
    pyIndex len n = some n.toNat := by
  simp only [pyIndex]
  rw [if_neg (by omega : ¬ n < 0), if_pos (by constructor <;> omega)]

theorem pyIndex_ge_invalid {len : Nat} {n : Int} (h : (len : Int) ≤ n) :
    pyIndex len n = none := by
  simp only [pyIndex]
  rw [if_neg (by omega : ¬ n < 0), if_neg (by omega)]

theorem pyIndex_neg_valid {len : Nat} {n : Int} (h1 : -(len : Int) ≤ n) (h2 : n < 0) :
    pyIndex len n = some (n + len).toNat := by
  simp only [pyIndex]
  rw [if_pos h2, if_pos (by constructor <;> omega)]

theorem pyIndex_neg_invalid {len : Nat} {n : Int} (h : n < -(len : Int)) :
    pyIndex len n = none := by
  have h2 : n < 0 := by omega
  simp only [pyIndex]
  rw [if_pos h2, if_neg (by omega : ¬ (0 ≤ n + (len : Int) ∧ n + (len : Int) < len))]

/-- C4: `extract_nth_sentence` returns the empty string (without raising)
for any index at or past the number of sentences, and the nth sentence of
`split_text_into_sentences` for in-range non-negative indices. -/
theorem extract_nth_sentence_spec (t : PyStr) (n : Int) :
    (((split_text_into_sentences t).length : Int) ≤ n →
      extract_nth_sentence t n = []) ∧
    (∀ (_ : 0 ≤ n) (hk : n.toNat < (split_text_into_sentences t).length),
      extract_nth_sentence t n = (split_text_into_sentences t).get ⟨n.toNat, hk⟩) := by
  constructor
  · intro h
    simp only [extract_nth_sentence]
    rw [pyIndex_ge_invalid h]
  · intro h0 hk
    simp only [extract_nth_sentence]
    rw [pyIndex_nonneg_valid h0 hk]
    exact (List.getD_eq_getElem _ _ hk).trans
      (List.get_eq_getElem (split_text_into_sentences t) ⟨n.toNat, hk⟩).symm

/-- Witness for C4 on the spec's concrete scenario
`extract_nth_sentence("A cat sat. A dog ran.", 5) = ""` and in-range index 0. -/
theorem extract_nth_sentence_spec_witness :
    extract_nth_sentence (("A cat sat. A dog ran.").toList) 5 = [] ∧
    extract_nth_sentence (("A cat sat. A dog ran.").toList) 0 =
      (split_text_into_sentences (("A cat sat. A dog ran.").toList)).get
        ⟨(0 : Int).toNat, by decide⟩ :=
  ⟨(extract_nth_sentence_spec _ 5).1 (by decide),
   (extract_nth_sentence_spec _ 0).2 (by decide) (by decide)⟩

/-- C5: `remove_nth_sentence` returns the input text unchanged
(byte-identical, no error) for any index at or past the number of sentences,
and the join of the remaining sentences for in-range non-negative indices. -/
theorem remove_nth_sentence_spec (t : PyStr) (n : Int) :
    (((split_text_into_sentences t).length : Int) ≤ n →
      remove_nth_sentence t n = t) ∧
    (0 ≤ n → n.toNat < (split_text_into_sentences t).length →
      remove_nth_sentence t n =
        join_sentences_into_text ((split_text_into_sentences t).eraseIdx n.toNat)) := by
  constructor
  · intro h
    simp only [remove_nth_sentence]
    rw [pyIndex_ge_invalid h]
  · intro h0 hk
    simp only [remove_nth_sentence]
    rw [pyIndex_nonneg_valid h0 hk]

/-- Witness for C5 on `"A cat sat. A dog ran. "` (trailing space kept
byte-identical) at the out-of-range index 7 and the in-range index 1. -/
theorem remove_nth_sentence_spec_witness :
    remove_nth_sentence (("A cat sat. A dog ran. ").toList) 7 =
      ("A cat sat. A dog ran. ").toList ∧
    remove_nth_sentence (("A cat sat. A dog ran.").toList) 1 =
      join_sentences_into_text
        ((split_text_into_sentences (("A cat sat. A dog ran.").toList)).eraseIdx
          (1 : Int).toNat) :=
  ⟨(remove_nth_sentence_spec _ 7).1 (by decide),
   (remove_nth_sentence_spec _ 1).2 (by decide) (by decide)⟩

/-- C10: negative indices are not out-of-range: for `-k ≤ n < 0` (where
`k` is the sentence count) `extract_nth_sentence` returns the sentence at
position `k + n` (never the empty string) and `remove_nth_sentence` removes
that sentence; the fail-soft fallbacks fire for a negative index only when
`|n|` exceeds the sentence count. -/
theorem negative_index_spec (t : PyStr) (n : Int) :
    (-((split_text_into_sentences t).length : Int) ≤ n → n < 0 →
      extract_nth_sentence t n =
        (split_text_into_sentences t).getD
          (n + (split_text_into_sentences t).length).toNat [] ∧
      extract_nth_sentence t n ≠ [] ∧
      remove_nth_sentence t n =
        join_sentences_into_text
          ((split_text_into_sentences t).eraseIdx
            (n + (split_text_into_sentences t).length).toNat)) ∧
    (n < -((split_text_into_sentences t).length : Int) →
      extract_nth_sentence t n = [] ∧ remove_nth_sentence t n = t) := by
  constructor
  · intro h1 h2
    have hk : (n + (split_text_into_sentences t).length).toNat <
        (split_text_into_sentences t).length := by omega
    refine ⟨?_, ?_, ?_⟩
    · simp only [extract_nth_sentence]
      rw [pyIndex_neg_valid h1 h2]
    · simp only [extract_nth_sentence]
      rw [pyIndex_neg_valid h1 h2]
      show (split_text_into_sentences t).getD
        (n + ((split_text_into_sentences t).length : Int)).toNat [] ≠ []
      rw [List.getD_eq_getElem _ _ hk]
      exact (split_text_into_sentences_good (List.getElem_mem hk)).1
    · simp only [remove_nth_sentence]
      rw [pyIndex_neg_valid h1 h2]
  · intro h
    constructor
    · simp only [extract_nth_sentence]
      rw [pyIndex_neg_invalid h]
    · simp only [remove_nth_sentence]
      rw [pyIndex_neg_invalid h]

/-- Witness for C10 on `"A cat sat. A dog ran."` at the negative in-range
index `-1` and the negative out-of-range index `-3`. -/
theorem negative_index_spec_witness :
    (extract_nth_sentence (("A cat sat. A dog ran.").toList) (-1) =
      (split_text_into_sentences (("A cat sat. A dog ran.").toList)).getD
        ((-1 : Int) +
          (split_text_into_sentences (("A cat sat. A dog ran.").toList)).length).toNat
        [] ∧
     extract_nth_sentence (("A cat sat. A dog ran.").toList) (-1) ≠ [] ∧
     remove_nth_sentence (("A cat sat. A dog ran.").toList) (-1) =
      join_sentences_into_text
        ((split_text_into_sentences (("A cat sat. A dog ran.").toList)).eraseIdx
          ((-1 : Int) +
            (split_text_into_sentences
              (("A cat sat. A dog ran.").toList)).length).toNat)) ∧
    (extract_nth_sentence (("A cat sat. A dog ran.").toList) (-3) = [] ∧
     remove_nth_sentence (("A cat sat. A dog ran.").toList) (-3) =
      ("A cat sat. A dog ran.").toList) :=
  ⟨(negative_index_spec _ (-1)).1 (by decide) (by decide),
   (negative_index_spec _ (-3)).2 (by decide)⟩

/-- C7: `wrap_text_with_sentences` joins the prefix and suffix sentence
lists into texts, glues them around the input with single spaces, and strips
outer whitespace; an absent (`None` or empty) prefix or suffix acts as the
empty string. Includes the spec's concrete scenario. -/
theorem wrap_text_with_sentences_spec :
    (∀ (t : PyStr) (ps ss : Option (List PyStr)),
      wrap_text_with_sentences t ps ss =
        stripChars (join_sentences_into_text (ps.getD []) ++
          ' ' :: t ++ ' ' :: join_sentences_into_text (ss.getD []))) ∧
    wrap_text_with_sentences (("The end.").toList)
      (some [("Once upon a time").toList]) none =
      ("Once upon a time. The end.").toList := by
  constructor
  · intro t ps ss
    have hp : ∀ o : Option (List PyStr),
        (match o with
          | some l => if l = [] then [] else join_sentences_into_text l
          | none => []) = join_sentences_into_text (o.getD []) := by
      intro o
      cases o with
      | none => rfl
      | some l =>
        by_cases h : l = []
        · subst h; rfl
        · show (if l = [] then [] else join_sentences_into_text l) =
            join_sentences_into_text ((some l).getD [])
          rw [Option.getD_some, if_neg h]
    simp only [wrap_text_with_sentences, hp, pyJoin]
    simp [List.append_assoc]
  · decide

/-- C8: the `pass_empty_text` guard maps the empty text to the empty text
without invoking the wrapped function (its result there does not depend on
the function), and on a non-empty text returns exactly the wrapped function's
value on the text and remaining arguments. -/
theorem pass_empty_text_spec :
    (∀ (α : Type) (f g : PyStr → α → PyStr) (a : α),
      pass_empty_text f [] a = [] ∧
      pass_empty_text f [] a = pass_empty_text g [] a) ∧
    (∀ (α : Type) (f : PyStr → α → PyStr) (t : PyStr) (a : α),
      t ≠ [] → pass_empty_text f t a = f t a) := by
  refine ⟨fun α f g a => ⟨rfl, rfl⟩, fun α f t a ht => ?_⟩
  simp only [pass_empty_text, if_neg ht]

/-- Witness for C8 on a concrete function and the non-empty text `"hi"`. -/
theorem pass_empty_text_spec_witness :
    pass_empty_text (fun (t : PyStr) (_ : Nat) => t ++ ['.']) ['h', 'i'] 0 =
      ['h', 'i', '.'] :=
  pass_empty_text_spec.2 Nat (fun t _ => t ++ ['.']) ['h', 'i'] 0 (by decide)

/-! ## The transform classes of `src/text_augmentation/transforms.py`

The `apply` methods there resolve attribute and global names at run time;
we embed the name environment of that module: the attribute names its
classes define (its base class `BasicTransform` is external and defines none
of these text helpers) and the names each `apply` body looks up. -/

/-- Every class, method and instance-attribute name defined anywhere in
`src/text_augmentation/transforms.py`, together with its module-level
imports. -/
def transforms_defined_names : List String :=
  ["Any", "Callable", "Dict", "Tuple", "BasicTransform", "Word", "Words",
   "Sentence", "Sentences", "Text", "F", "TextTransform", "RandomSwapSentences",
   "RandomSwapWords", "RandomDeletionSentences", "RandomDeletionWords",
   "targets", "update_params", "get_sentences_from_text",
   "get_words_from_sentence", "combine_sentences", "combine_words", "apply",
   "get_transform_init_args_names", "min_sentences", "deletion_prob",
   "min_words_each_sentence"]

/-- Attribute names `RandomSwapSentences.apply` looks up on `self`
(line 51 spells `get_senteces_from_text`). -/
def randomSwapSentences_apply_lookups : List String :=
  ["get_senteces_from_text", "combine_sentences"]

/-- Names `RandomSwapWords.apply` looks up on `self` or at module scope
(line 68 references the global `np`; line 73 spells `combine_senteces`). -/
def randomSwapWords_apply_lookups : List String :=
  ["get_sentences_from_text", "np", "get_words_from_sentence", "F",
   "combine_words", "combine_senteces"]

/-- Attribute names `RandomDeletionSentences.apply` looks up on `self`. -/
def randomDeletionSentences_apply_lookups : List String :=
  ["get_senteces_from_text", "F", "min_sentences", "deletion_prob",
   "combine_sentences"]

/-- Attribute names `RandomDeletionWords.apply` looks up on `self`
(line 123 reads `self.delete_prob`; the constructor sets `deletion_prob`). -/
def randomDeletionWords_apply_lookups : List String :=
  ["get_senteces_from_text", "get_words_from_sentence", "F",
   "min_words_each_sentence", "delete_prob", "combine_words",
   "combine_sentences"]

/-- C6 (code bug): each transform's `apply` dereferences a name that is
defined nowhere in the module: `RandomSwapSentences.apply`,
`RandomDeletionSentences.apply` and `RandomDeletionWords.apply` call the
misspelled `get_senteces_from_text`, `RandomSwapWords.apply` references the
never-imported global `np` and the misspelled `combine_senteces`, and
`RandomDeletionWords.apply` reads the never-assigned `delete_prob` — so each
raises instead of returning a string. -/
theorem transforms_apply_name_error :
    ("get_senteces_from_text" ∈ randomSwapSentences_apply_lookups ∧
      "get_senteces_from_text" ∉ transforms_defined_names) ∧
    ("np" ∈ randomSwapWords_apply_lookups ∧
      "np" ∉ transforms_defined_names) ∧
    ("combine_senteces" ∈ randomSwapWords_apply_lookups ∧
      "combine_senteces" ∉ transforms_defined_names) ∧
    ("get_senteces_from_text" ∈ randomDeletionSentences_apply_lookups ∧
      "delete_prob" ∈ randomDeletionWords_apply_lookups ∧
      "delete_prob" ∉ transforms_defined_names) := by
  decide

/-! ## Serialization round-trip (spec-modelled)

The augmentation transform classes exercised by
`src/tests/test_serialization.py` and the pipeline framework's
`A.to_dict` / `A.from_dict` are not under `src/`; we model them from the
spec (§6: a generic key-value serialization of the named parameters, §8:
reproducibility under a fixed seed). -/

/-- Modelled from the spec: an augmentation transform instance is determined
by its named parameters; per `test_augmentations_serialization` these are
`ignore_first`, `always_apply` and `p` (the probability, kept here in
hundredths). -/
structure AugTransform where
  ignore_first : Bool
  always_apply : Bool
  p_percent : Nat

/-- Modelled from the spec: serializing an augmentation's parameters into a
generic key-value parameter map (`A.to_dict`). -/
def augToDict (a : AugTransform) : List (String × Nat) :=
  [("ignore_first", if a.ignore_first then 1 else 0),
   ("always_apply", if a.always_apply then 1 else 0),
   ("p", a.p_percent)]

/-- Modelled from the spec: constructing a new transform instance from a
serialized parameter map (`A.from_dict`); fails on a map that lacks a
required parameter. -/
def augFromDict (d : List (String × Nat)) : Option AugTransform :=
  match d.lookup ("ignore_first"), d.lookup ("always_apply"), d.lookup ("p") with
  | some i, some ap, some p => some ⟨i != 0, ap != 0, p⟩
  | _, _, _ => none

/-- Modelled from the spec: the seedable randomness source (§6), as a linear
congruential generator; `set_seed(seed)` makes the state equal to the seed,
and each draw returns a value below `bound` and the new state. -/
def nextNat (state bound : Nat) : Nat × Nat :=
  let s := (1103515245 * state + 12345) % 2 ^ 31
  (if bound = 0 then 0 else s % bound, s)

/-- Swap the elements of `l` at positions `i` and `j`. -/
def swapElems (l : List PyStr) (i j : Nat) : List PyStr :=
  (l.set i (l.getD j [])).set j (l.getD i [])

/-- Modelled from the spec: one seeded run of a probability-gated
sentence-swap augmentation — gate on `p` (unless `always_apply`), skip the
first sentence when `ignore_first`, draw two indices from the randomness
source, swap, and rejoin through the source's split/join. -/
def runAug (a : AugTransform) (seed : Nat) (text : PyStr) : PyStr :=
  let (gate, s1) := nextNat seed 100
  if a.always_apply || decide (gate < a.p_percent) then
    let sentences := split_text_into_sentences text
    let lo := if a.ignore_first then 1 else 0
    if lo + 2 ≤ sentences.length then
      let (i, s2) := nextNat s1 (sentences.length - lo)
      let (j, _) := nextNat s2 (sentences.length - lo)
      join_sentences_into_text (swapElems sentences (lo + i) (lo + j))
    else text
  else text

/-- C9 (spec-modelled): serializing a transform's parameters and
deserializing them into a new instance yields a transform that, run with the
same seed on the same input, produces the identical output text. -/
theorem serialization_roundtrip_reproducible (a : AugTransform) (seed : Nat)
    (text : PyStr) :
    (augFromDict (augToDict a)).map (fun b => runAug b seed text) =
      some (runAug a seed text) := by
  have hrt : augFromDict (augToDict a) = some a := by
    cases a with
    | mk i ap p =>
      cases i <;> cases ap <;> simp [augToDict, augFromDict, List.lookup]
  rw [hrt, Option.map_some']

end TextBoost
